import Mathlib

/-!
Shallow embedding of the Feed Aggregation & Caching Engine of
daily-geek-news-bot (src/modules/newsCache.js, first revision, and the
`parseRSSWithRetry` variant), together with theorems settling the frozen
claims about it.

Conventions of the embedding:
* JavaScript timestamps (`Date.now()`) are integers (milliseconds).
* A JavaScript date string is modelled as a `DStr`: the raw string plus the
  result of `new Date(raw)` (`none` models an Invalid Date / NaN).
* JavaScript truthiness of strings (`""` is falsy) is modelled explicitly.
* Code that can throw is modelled with `Except`; a `try/catch` boundary is a
  `match` on that `Except`.
* The wall clock and the network are inputs: functions take `now` and a
  description of what each HTTP attempt / parse would produce.
-/

namespace DGNB

/-- A date string together with the result of `new Date(raw)`;
`parsed = none` models an Invalid Date (NaN timestamp). -/
structure DStr where
  raw : String
  parsed : Option Int
deriving Repr, DecidableEq

/-- A raw entry of a parsed feed document, as produced by rss-parser.
`none` models an absent (`undefined`) field. -/
structure RawItem where
  title : Option String
  link : Option String
  guid : Option String
  pubDate : Option DStr
  isoDate : Option DStr
  contentSnippet : Option String
deriving Repr, DecidableEq

/-- The normalized item shape built in `parseRSSFeedSafe`. -/
structure NewsItem where
  title : String
  link : String
  pubDate : Option DStr
  isoDate : Option DStr
  source : String
  contentSnippet : String
deriving Repr, DecidableEq

/-- JS truthiness of an optional string: `undefined` and `""` are falsy. -/
def truthyS : Option String → Bool
  | none => false
  | some s => !(s = "")

/-- JS truthiness of an optional date string field. -/
def truthyD : Option DStr → Bool
  | none => false
  | some d => !(d.raw = "")

/-- JS `a || b` for an optional string against a string default. -/
def jsOrStr (a : Option String) (b : String) : String :=
  match a with
  | some s => if s = "" then b else s
  | none => b

/-- JS `a || b` on two optional date-string fields (`b` returned as-is when
`a` is falsy). -/
def jsOrD (a b : Option DStr) : Option DStr :=
  if truthyD a then a else b

/- ## Cache Store: class SimpleCache (newsCache.js lines 30-69) -/

/-- One value of the `Map` inside `SimpleCache`: the per-feed item list and
the `Date.now()` stamp recorded by `set`. -/
structure CacheEntry where
  data : List NewsItem
  timestamp : Int
deriving Repr, DecidableEq

/-- The `SimpleCache` itself: a JS `Map` in insertion order. -/
structure SimpleCache where
  entries : List (String × CacheEntry)
deriving Repr, DecidableEq

/-- `this.CACHE_TTL = 10 * 60 * 1000`. -/
def CACHE_TTL : Int := 10 * 60 * 1000

/-- `Map.prototype.get`: first (only, for a real `Map`) entry with the key. -/
def mapFind : List (String × CacheEntry) → String → Option CacheEntry
  | [], _ => none
  | (k', v) :: rest, k => if k' = k then some v else mapFind rest k

/-- `Map.prototype.set`: overwrite in place if the key exists, else append. -/
def mapSet : List (String × CacheEntry) → String → CacheEntry → List (String × CacheEntry)
  | [], k, v => [(k, v)]
  | (k', v') :: rest, k, v =>
    if k' = k then (k, v) :: rest else (k', v') :: mapSet rest k v

/-- `Map.prototype.delete`: remove the entry with the key. -/
def mapDelete : List (String × CacheEntry) → String → List (String × CacheEntry)
  | [], _ => []
  | (k', v') :: rest, k => if k' = k then rest else (k', v') :: mapDelete rest k

/-- `SimpleCache.get(key)` at wall-clock `now`: absent entries give `null`;
an entry older than `CACHE_TTL` (strictly) is deleted and gives `null`;
otherwise its data is returned.  Returns the observed value and the cache
after the lazy deletion. -/
def SimpleCache.get (c : SimpleCache) (now : Int) (key : String) :
    Option (List NewsItem) × SimpleCache :=
  match mapFind c.entries key with
  | none => (none, c)
  | some e =>
    if now - e.timestamp > CACHE_TTL then (none, ⟨mapDelete c.entries key⟩)
    else (some e.data, c)

/-- `SimpleCache.set(key, data)` stamping `timestamp = Date.now()`. -/
def SimpleCache.set (c : SimpleCache) (now : Int) (key : String)
    (data : List NewsItem) : SimpleCache :=
  ⟨mapSet c.entries key ⟨data, now⟩⟩

/-- The scan of `SimpleCache.getAll`: concatenates the data of entries whose
age is `≤ CACHE_TTL` in insertion order and drops the expired ones. -/
def getAllScan (now : Int) :
    List (String × CacheEntry) → List NewsItem × List (String × CacheEntry)
  | [] => ([], [])
  | (k, v) :: rest =>
    let r := getAllScan now rest
    if now - v.timestamp ≤ CACHE_TTL then (v.data ++ r.1, (k, v) :: r.2)
    else r

/-- `SimpleCache.getAll()` at wall-clock `now`: the concatenated fresh items
and the cache after lazy deletion of the expired entries. -/
def SimpleCache.getAll (c : SimpleCache) (now : Int) :
    List NewsItem × SimpleCache :=
  let r := getAllScan now c.entries
  (r.1, ⟨r.2⟩)

/- ## Feed descriptors and item normalization (newsCache.js lines 133-143, 174-187) -/

/-- A feed descriptor from `RSS_FEEDS`. -/
structure Feed where
  name : String
  url : String
deriving Repr, DecidableEq

/-- The static `RSS_FEEDS` list of newsCache.js. -/
def RSS_FEEDS : List Feed :=
  [⟨"Toss Tech", "https://toss.tech/rss.xml"⟩,
   ⟨"GeekNewsFeed", "http://feeds.feedburner.com/geeknews-feed"⟩,
   ⟨"LineTechNews", "https://techblog.lycorp.co.jp/ko/feed/index.xml"⟩,
   ⟨"CoupangNewsFeed", "https://medium.com/feed/coupang-engineering"⟩,
   ⟨"DaangnNewsFeed", "https://medium.com/feed/daangn"⟩]

/-- The object literal built for each raw entry in `parseRSSFeedSafe`. -/
def normalizeItem (feedName : String) (it : RawItem) : NewsItem :=
  { title := jsOrStr it.title "No title"
    link := jsOrStr it.link (jsOrStr it.guid "")
    pubDate := jsOrD it.pubDate it.isoDate
    isoDate := jsOrD it.isoDate it.pubDate
    source := feedName
    contentSnippet := jsOrStr it.contentSnippet "" }

/-- `parsedFeed.items.slice(0, itemsPerFeed).map(...).filter(item => item.link)`:
take the first `itemsPerFeed` entries, normalize them, then drop the ones
whose resulting link is empty. -/
def processFeedItems (feedName : String) (itemsPerFeed : Nat)
    (rawItems : List RawItem) : List NewsItem :=
  ((rawItems.take itemsPerFeed).map (normalizeItem feedName)).filter
    (fun it => !(it.link = ""))

/-- Whether a raw entry carries a usable link (`item.link || item.guid` truthy),
i.e. whether the filter of `processFeedItems` keeps its normalization. -/
def usableLink (it : RawItem) : Bool :=
  !(jsOrStr it.link (jsOrStr it.guid "") = "")

/- ## The axios download retry loop of parseRSSFeedSafe (newsCache.js lines 92-122) -/

/-- What one `httpClient.get` attempt produces: a rejection (network error,
timeout, or non-2xx HTTP status, which axios turns into a thrown error), or a
resolved response body. -/
inductive AttemptOutcome where
  | err (msg : String)
  | body (data : String)
deriving Repr, DecidableEq

/-- `!response.data || response.data.trim().length === 0`: the guard that
throws `Empty response data`.  A string trims to length 0 exactly when all
of its characters are whitespace (modelled on the character list). -/
def emptyBody (s : String) : Bool := s.toList.all Char.isWhitespace

/-- Whether an attempt ends up in the `catch` of the retry loop: a rejected
request, or a resolved one whose body is empty. -/
def attemptFails : AttemptOutcome → Bool
  | .err _ => true
  | .body d => emptyBody d

/-- The `for (let attempt = 1; attempt <= 3; attempt++)` download loop.
`attempts i` is what the i-th `httpClient.get` would produce; `fuel` is the
number of attempts still allowed (`3 - attempt + 1`).  Returns the downloaded
`xmlData` (or `none` if every attempt failed), the list of backoff delays
awaited (`attempt * 1000` ms, only when `attempt < 3`), and the number of
attempts made. -/
def axiosRetryLoop (attempts : Nat → AttemptOutcome) :
    Nat → Nat → Option String × List Nat × Nat
  | _, 0 => (none, [], 0)
  | attempt, fuel + 1 =>
    let failStep : Option String × List Nat × Nat :=
      if fuel = 0 then (none, [], 1)
      else
        let r := axiosRetryLoop attempts (attempt + 1) fuel
        (r.1, attempt * 1000 :: r.2.1, r.2.2 + 1)
    match attempts attempt with
    | .body d => if emptyBody d then failStep else (some d, [], 1)
    | .err _ => failStep

/-- The download loop as invoked: first attempt 1, at most 3 attempts. -/
def axiosDownload (attempts : Nat → AttemptOutcome) :
    Option String × List Nat × Nat :=
  axiosRetryLoop attempts 1 3

/-- The environment a fresh `parseRSSFeedSafe` run interacts with: the
outcome of each download attempt and of `parser.parseString` on a body.
`parse` returning `.error` models a thrown parse exception; `.ok none`
models a parsed feed object whose `items` field is absent. -/
structure ParseEnv where
  attempts : Nat → AttemptOutcome
  parse : String → Except String (Option (List RawItem))

/-- The try-block of `parseRSSFeedSafe` after a cache miss (newsCache.js
lines 88-151), as an `Except`: `.error` is an exception reaching the catch.
The boolean records whether `cache.set` was executed (it is skipped on the
`아이템 없음` early return). -/
def parseRSSFresh (env : ParseEnv) (feed : Feed) (itemsPerFeed : Nat) :
    Except String (List NewsItem × Bool) :=
  let dl := axiosDownload env.attempts
  match dl.1 with
  | none => .error "Failed to fetch XML data"
  | some xml =>
    match env.parse xml with
    | .error e => .error e
    | .ok none => .ok ([], false)
    | .ok (some rawItems) =>
      if rawItems.length = 0 then .ok ([], false)
      else .ok (processFeedItems feed.name itemsPerFeed rawItems, true)

/-- `parseRSSFeedSafe(feed, itemsPerFeed)` (newsCache.js lines 78-172):
cache check, then the guarded fresh fetch whose catch returns `[]`.
Returns the item list and the cache afterwards. -/
def parseRSSFeedSafe (cache : SimpleCache) (now : Int) (env : ParseEnv)
    (feed : Feed) (itemsPerFeed : Nat) : List NewsItem × SimpleCache :=
  let g := cache.get now feed.url
  match g.1 with
  | some cachedItems => (cachedItems, g.2)
  | none =>
    match parseRSSFresh env feed itemsPerFeed with
    | .error _ => ([], g.2)
    | .ok (items, didSet) =>
      (items, if didSet then g.2.set now feed.url items else g.2)

/- ## parseRSSWithRetry (the src/unnamed/part_000 revision, lines 14-70) -/

/-- The retryable error fragments of `parseRSSWithRetry`. -/
def retryableErrors : List String :=
  ["socket hang up", "ECONNRESET", "ETIMEDOUT", "ENOTFOUND", "ECONNREFUSED",
   "timeout"]

/-- Substring test on character lists (JS `String.prototype.includes`). -/
def strContainsAux (p : List Char) : List Char → Bool
  | [] => p.isEmpty
  | c :: t => p.isPrefixOf (c :: t) || strContainsAux p t

/-- JS `s.toLowerCase()` modelled character by character (adequate for the
ASCII error messages involved). -/
def lowerList (s : String) : List Char := s.toList.map Char.toLower

/-- `retryableErrors.some(err => error.message.toLowerCase().includes(err.toLowerCase()))`. -/
def shouldRetryMsg (msg : String) : Bool :=
  retryableErrors.any (fun e => strContainsAux (lowerList e) (lowerList msg))

/-- What one `parser.parseURL` attempt produces in `parseRSSWithRetry`. -/
inductive ParseURLOutcome where
  | ok (items : List RawItem)
  | err (msg : String)
deriving Repr, DecidableEq

/-- `{...item, source: feed.name}`: a raw entry tagged with its source. -/
structure SItem where
  item : RawItem
  source : String
deriving Repr, DecidableEq

/-- The `for (let attempt = 1; attempt <= maxRetries; attempt++)` loop of
`parseRSSWithRetry`.  Returns the value returned by the function (`none`
models the `undefined` fall-through when the loop exhausts, which cannot
happen for `maxRetries ≥ 1`), the backoff delays awaited
(`min(1000 * 2^(attempt-1), 10000)` ms), and the number of attempts made. -/
def retryLoopWR (outcomes : Nat → ParseURLOutcome) (maxRetries : Nat)
    (feedName : String) : Nat → Nat → Option (List SItem) × List Nat × Nat
  | _, 0 => (none, [], 0)
  | attempt, fuel + 1 =>
    match outcomes attempt with
    | .ok items => (some (items.map (fun it => ⟨it, feedName⟩)), [], 1)
    | .err msg =>
      if shouldRetryMsg msg && !(attempt = maxRetries) then
        let d := min (1000 * 2 ^ (attempt - 1)) 10000
        let r := retryLoopWR outcomes maxRetries feedName (attempt + 1) fuel
        (r.1, d :: r.2.1, r.2.2 + 1)
      else (some [], [], 1)

/-- `parseRSSWithRetry(feed, maxRetries = 3)` of the part_000 revision. -/
def parseRSSWithRetry (outcomes : Nat → ParseURLOutcome) (feed : Feed)
    (maxRetries : Nat) : Option (List SItem) × List Nat × Nat :=
  retryLoopWR outcomes maxRetries feed.name 1 maxRetries

/- ## The sort/filter pipeline of fetchAllNewsCloudRun (newsCache.js lines 226-238, 259-271) -/

/-- `item.pubDate || item.isoDate`: the date-field presence filter. -/
def hasDateField (it : NewsItem) : Bool :=
  truthyD it.pubDate || truthyD it.isoDate

/-- `new Date(a.isoDate || a.pubDate)` as an optional timestamp
(`none` = Invalid Date, NaN). -/
def effDate (it : NewsItem) : Option Int :=
  match jsOrD it.isoDate it.pubDate with
  | some d => d.parsed
  | none => none

/-- The sort comparator `dateB - dateA`.  When either date is NaN the JS
comparator returns NaN, which the ECMAScript sort treats as 0; the model
returns 0 there directly. -/
def jsCompare (a b : NewsItem) : Int :=
  match effDate a, effDate b with
  | some da, some db => db - da
  | _, _ => 0

/-- Stable insertion of an element by the comparator: `a` goes in front of
the first `b` it does not have to come after. -/
def sortInsert (a : NewsItem) : List NewsItem → List NewsItem
  | [] => [a]
  | b :: l => if jsCompare a b ≤ 0 then a :: b :: l else b :: sortInsert a l

/-- The stable `Array.prototype.sort` with the `dateB - dateA` comparator. -/
def jsSortByDate (l : List NewsItem) : List NewsItem :=
  l.foldr sortInsert []

/-- `.filter(item => item.pubDate || item.isoDate).sort(...)`: the shared
filter-and-sort pipeline of both paths of `fetchAllNewsCloudRun`. -/
def sortPipeline (items : List NewsItem) : List NewsItem :=
  jsSortByDate (items.filter hasDateField)

/-- `limit ? sortedItems.slice(0, limit) : sortedItems`, including the JS
truthiness of `limit` (a provided 0 is falsy and means no cap). -/
def applyLimit : Option Nat → List NewsItem → List NewsItem
  | none, l => l
  | some n, l => if n = 0 then l else l.take n

/- ## The Aggregation Coordinator: fetchAllNewsCloudRun (newsCache.js lines 216-279) -/

/-- The process-wide mutable state of newsCache.js: the module-level
`cache`, `isCurrentlyLoading` and `loadingStartTime`. -/
structure NewsState where
  cache : SimpleCache
  isCurrentlyLoading : Bool
  loadingStartTime : Option Int
deriving Repr, DecidableEq

/-- One call's observable outcome: the returned list, the state when the
call returns (after the `finally` block), and whether this call started a
fetch pass over the feeds. -/
structure FetchCallResult where
  result : List NewsItem
  state : NewsState
  startedFetch : Bool
deriving Repr, DecidableEq

/-- `TOTAL_TARGET = 100`. -/
def TOTAL_TARGET : Nat := 100

/-- `Math.ceil(TOTAL_TARGET / RSS_FEEDS.length)`. -/
def itemsPerFeedVal : Nat :=
  (TOTAL_TARGET + RSS_FEEDS.length - 1) / RSS_FEEDS.length

/-- The outcome of the 35-second `Promise.race` around one feed in
`fetchWithFastFail`: either `parseRSSFeedSafe` settles first or the timer
resolves `[]` first. -/
inductive RaceOutcome where
  | finished
  | timedOut
deriving Repr, DecidableEq

/-- `fetchWithFastFail(feeds, itemsPerFeed)` (newsCache.js lines 190-214),
linearized feed by feed (§5 of the spec: cache mutations are atomic between
suspension points).  A feed losing its race contributes `[]`; the detached
continuation of a timed-out parse is not modelled, no claim depends on it.
`parseRSSFeedSafe` never rejects, so the `allSettled` rejected branch is
unreachable. -/
def fetchWithFastFail (cache : SimpleCache) (now : Int)
    (envs : Feed → ParseEnv) (races : Feed → RaceOutcome)
    (feeds : List Feed) (itemsPerFeed : Nat) :
    List (List NewsItem) × SimpleCache :=
  match feeds with
  | [] => ([], cache)
  | f :: rest =>
    match races f with
    | .timedOut =>
      let r := fetchWithFastFail cache now envs races rest itemsPerFeed
      ([] :: r.1, r.2)
    | .finished =>
      let p := parseRSSFeedSafe cache now (envs f) f itemsPerFeed
      let r := fetchWithFastFail p.2 now envs races rest itemsPerFeed
      (p.1 :: r.1, r.2)

/-- `fetchAllNewsCloudRun(limit = null)` (newsCache.js lines 216-279), one
call as a state transition.  `pass` is the fetch wave
(`fetchWithFastFail(RSS_FEEDS, itemsPerFeed)` followed by `.flat()` is its
`List.flatten`); it is a parameter so that theorems quantify over every network
behaviour.  The `finally` block resets `isCurrentlyLoading` and
`loadingStartTime` on every exit path, which the returned state reflects. -/
def fetchAllNewsCloudRun (st : NewsState) (now : Int)
    (pass : SimpleCache → List (List NewsItem) × SimpleCache)
    (limit : Option Nat) : FetchCallResult :=
  let g := st.cache.getAll now
  if 0 < g.1.length then
    { result := applyLimit limit (sortPipeline g.1)
      state := { cache := g.2, isCurrentlyLoading := false,
                 loadingStartTime := none }
      startedFetch := false }
  else if st.isCurrentlyLoading then
    { result := []
      state := { cache := g.2, isCurrentlyLoading := false,
                 loadingStartTime := none }
      startedFetch := false }
  else
    let p := pass g.2
    { result := applyLimit limit (sortPipeline p.1.flatten)
      state := { cache := p.2, isCurrentlyLoading := false,
                 loadingStartTime := none }
      startedFetch := true }

/- ## Helper lemmas about the sort pipeline -/

/-- The parsed timestamp of an item, defaulting to 0; meaningful on items
whose effective date is parsable. -/
def dateKey (it : NewsItem) : Int := (effDate it).getD 0

theorem sortInsert_perm (a : NewsItem) (l : List NewsItem) :
    List.Perm (sortInsert a l) (a :: l) := by
  induction l with
  | nil => simp [sortInsert]
  | cons b t ih =>
    by_cases hc : jsCompare a b ≤ 0
    · simp [sortInsert, hc]
    · have hrw : sortInsert a (b :: t) = b :: sortInsert a t := by
        simp [sortInsert, hc]
      rw [hrw]
      exact (ih.cons b).trans (List.Perm.swap a b t)

theorem jsSortByDate_perm (l : List NewsItem) :
    List.Perm (jsSortByDate l) l := by
  induction l with
  | nil => simp [jsSortByDate]
  | cons x t ih =>
    have hstep : jsSortByDate (x :: t) = sortInsert x (jsSortByDate t) := rfl
    rw [hstep]
    exact (sortInsert_perm x (jsSortByDate t)).trans (ih.cons x)

theorem jsCompare_le_iff (a b : NewsItem)
    (ha : (effDate a).isSome = true) (hb : (effDate b).isSome = true) :
    jsCompare a b ≤ 0 ↔ dateKey b ≤ dateKey a := by
  rcases Option.isSome_iff_exists.mp ha with ⟨da, hda⟩
  rcases Option.isSome_iff_exists.mp hb with ⟨db, hdb⟩
  have h1 : jsCompare a b = db - da := by simp [jsCompare, hda, hdb]
  have h2 : dateKey a = da := by simp [dateKey, hda]
  have h3 : dateKey b = db := by simp [dateKey, hdb]
  rw [h1, h2, h3]
  omega

theorem sortInsert_pairwise (a : NewsItem) (l : List NewsItem)
    (ha : (effDate a).isSome = true) (hl : ∀ x ∈ l, (effDate x).isSome = true)
    (h : l.Pairwise fun x y => dateKey y ≤ dateKey x) :
    (sortInsert a l).Pairwise fun x y => dateKey y ≤ dateKey x := by
  induction l with
  | nil => simp [sortInsert]
  | cons b t ih =>
    have hb : (effDate b).isSome = true := hl b (by simp)
    have ht : ∀ x ∈ t, (effDate x).isSome = true := fun x hx => hl x (by simp [hx])
    rcases List.pairwise_cons.mp h with ⟨hbt, hpt⟩
    by_cases hc : jsCompare a b ≤ 0
    · have hba : dateKey b ≤ dateKey a := (jsCompare_le_iff a b ha hb).mp hc
      simp only [sortInsert, hc, ite_true]
      refine List.pairwise_cons.mpr ⟨?_, h⟩
      intro y hy
      rcases List.mem_cons.mp hy with rfl | hyt
      · exact hba
      · exact le_trans (hbt y hyt) hba
    · have hab : dateKey a ≤ dateKey b := by
        rcases Option.isSome_iff_exists.mp ha with ⟨da, hda⟩
        rcases Option.isSome_iff_exists.mp hb with ⟨db, hdb⟩
        simp [jsCompare, hda, hdb] at hc
        simp [dateKey, hda, hdb]
        omega
      simp only [sortInsert, hc, ite_false]
      refine List.pairwise_cons.mpr ⟨?_, ih ht hpt⟩
      intro y hy
      rcases List.mem_cons.mp ((sortInsert_perm a t).mem_iff.mp hy) with rfl | hyt
      · exact hab
      · exact hbt y hyt

theorem jsSortByDate_pairwise (l : List NewsItem)
    (hl : ∀ x ∈ l, (effDate x).isSome = true) :
    (jsSortByDate l).Pairwise fun x y => dateKey y ≤ dateKey x := by
  induction l with
  | nil => simp [jsSortByDate]
  | cons x t ih =>
    have hstep : jsSortByDate (x :: t) = sortInsert x (jsSortByDate t) := rfl
    rw [hstep]
    have ht : ∀ y ∈ t, (effDate y).isSome = true := fun y hy => hl y (by simp [hy])
    refine sortInsert_pairwise x (jsSortByDate t) (hl x (by simp)) ?_ (ih ht)
    intro y hy
    exact ht y ((jsSortByDate_perm t).mem_iff.mp hy)

theorem sortPipeline_perm (items : List NewsItem) :
    List.Perm (sortPipeline items) (items.filter hasDateField) :=
  jsSortByDate_perm _

theorem mem_sortPipeline_hasDate (items : List NewsItem) (it : NewsItem)
    (h : it ∈ sortPipeline items) : hasDateField it = true :=
  (List.mem_filter.mp ((sortPipeline_perm items).mem_iff.mp h)).2

theorem sortPipeline_pairwise (items : List NewsItem)
    (h : ∀ x ∈ items, (effDate x).isSome = true) :
    (sortPipeline items).Pairwise fun x y => dateKey y ≤ dateKey x := by
  refine jsSortByDate_pairwise _ ?_
  intro x hx
  exact h x (List.mem_of_mem_filter hx)

theorem applyLimit_sublist (limit : Option Nat) (l : List NewsItem) :
    (applyLimit limit l).Sublist l := by
  cases limit with
  | none => exact List.Sublist.refl l
  | some n =>
    by_cases hn : n = 0
    · simp [applyLimit, hn]
    · simp [applyLimit, hn]
      exact List.take_sublist n l

theorem mem_applyLimit (limit : Option Nat) (l : List NewsItem) (it : NewsItem)
    (h : it ∈ applyLimit limit l) : it ∈ l :=
  (applyLimit_sublist limit l).subset h

theorem applyLimit_pairwise (limit : Option Nat) (l : List NewsItem)
    {R : NewsItem → NewsItem → Prop} (h : l.Pairwise R) :
    (applyLimit limit l).Pairwise R :=
  h.sublist (applyLimit_sublist limit l)

/- ## Helper lemmas about the cache's map operations -/

theorem mapFind_mapSet_self (l : List (String × CacheEntry)) (k : String)
    (e : CacheEntry) : mapFind (mapSet l k e) k = some e := by
  induction l with
  | nil => simp [mapSet, mapFind]
  | cons p rest ih =>
    rcases p with ⟨k', v'⟩
    by_cases hk : k' = k
    · simp [mapSet, hk, mapFind]
    · simp [mapSet, hk, mapFind, ih]

theorem mem_mapSet_self (l : List (String × CacheEntry)) (k : String)
    (e : CacheEntry) : (k, e) ∈ mapSet l k e := by
  induction l with
  | nil => simp [mapSet]
  | cons p rest ih =>
    rcases p with ⟨k', v'⟩
    by_cases hk : k' = k
    · simp [mapSet, hk]
    · simp [mapSet, hk]
      right
      exact ih

theorem mem_mapSet (l : List (String × CacheEntry)) (k : String)
    (e : CacheEntry) (p : String × CacheEntry) (h : p ∈ mapSet l k e) :
    p ∈ l ∨ p = (k, e) := by
  induction l with
  | nil =>
    right
    simpa [mapSet] using h
  | cons q rest ih =>
    rcases q with ⟨k', v'⟩
    by_cases hk : k' = k
    · simp only [mapSet, hk, ite_true] at h
      rcases List.mem_cons.mp h with h1 | h1
      · right; exact h1
      · left; exact List.mem_cons_of_mem _ h1
    · simp only [mapSet, hk, ite_false] at h
      rcases List.mem_cons.mp h with h1 | h1
      · left; simp [h1]
      · rcases ih h1 with h2 | h2
        · left; exact List.mem_cons_of_mem _ h2
        · right; exact h2

theorem nodup_keys_mapSet (l : List (String × CacheEntry)) (k : String)
    (e : CacheEntry) (h : (l.map Prod.fst).Nodup) :
    ((mapSet l k e).map Prod.fst).Nodup := by
  induction l with
  | nil => simp [mapSet]
  | cons p rest ih =>
    rcases p with ⟨k', v'⟩
    rcases List.nodup_cons.mp h with ⟨hk', hrest⟩
    by_cases hk : k' = k
    · subst hk
      simpa [mapSet] using List.nodup_cons.mpr ⟨hk', hrest⟩
    · simp only [mapSet, hk, ite_false, List.map_cons]
      refine List.nodup_cons.mpr ⟨?_, ih hrest⟩
      intro hmem
      rcases List.mem_map.mp hmem with ⟨⟨a, b⟩, hab, hfst⟩
      rcases mem_mapSet rest k e (a, b) hab with h' | h'
      · have hmem2 : (a, b).1 ∈ rest.map Prod.fst := List.mem_map_of_mem Prod.fst h'
        rw [hfst] at hmem2
        exact hk' hmem2
      · have ha : a = k := congrArg Prod.fst h'
        exact hk (by rw [← hfst]; exact ha)

theorem mem_mapSet_eq (l : List (String × CacheEntry)) (k : String)
    (e v : CacheEntry) (hnd : (l.map Prod.fst).Nodup)
    (hm : (k, v) ∈ mapSet l k e) : v = e := by
  induction l with
  | nil =>
    have h1 : (k, v) = (k, e) := List.mem_singleton.mp (by simpa [mapSet] using hm)
    exact congrArg Prod.snd h1
  | cons p rest ih =>
    rcases p with ⟨k', v'⟩
    rcases List.nodup_cons.mp hnd with ⟨hk', hrest⟩
    by_cases hk : k' = k
    · subst hk
      simp only [mapSet, ite_true] at hm
      rcases List.mem_cons.mp hm with h | h
      · exact congrArg Prod.snd h
      · have hmem2 : (k', v).1 ∈ rest.map Prod.fst := List.mem_map_of_mem Prod.fst h
        exact absurd hmem2 hk'
    · simp only [mapSet, hk, ite_false] at hm
      rcases List.mem_cons.mp hm with h | h
      · exact absurd (congrArg Prod.fst h).symm hk
      · exact ih hrest h

theorem not_mem_mapDelete_self (l : List (String × CacheEntry)) (k : String)
    (v : CacheEntry) (hnd : (l.map Prod.fst).Nodup) :
    (k, v) ∉ mapDelete l k := by
  induction l with
  | nil => simp [mapDelete]
  | cons p rest ih =>
    rcases p with ⟨k', v'⟩
    rcases List.nodup_cons.mp hnd with ⟨hk', hrest⟩
    by_cases hk : k' = k
    · subst hk
      simp only [mapDelete, ite_true]
      intro h
      have hmem2 : (k', v).1 ∈ rest.map Prod.fst := List.mem_map_of_mem Prod.fst h
      exact hk' hmem2
    · simp only [mapDelete, hk, ite_false]
      intro h
      rcases List.mem_cons.mp h with h1 | h1
      · exact hk (congrArg Prod.fst h1).symm
      · exact ih hrest h1

theorem mapFind_eq_none (l : List (String × CacheEntry)) (k : String)
    (h : ∀ v, (k, v) ∉ l) : mapFind l k = none := by
  induction l with
  | nil => rfl
  | cons p rest ih =>
    rcases p with ⟨k', v'⟩
    have hk : ¬ k' = k := by
      intro hkk
      exact h v' (by simp [hkk])
    simp only [mapFind, hk, ite_false]
    exact ih (fun v hv => h v (List.mem_cons_of_mem _ hv))

theorem mapFind_mapDelete_self (l : List (String × CacheEntry)) (k : String)
    (hnd : (l.map Prod.fst).Nodup) : mapFind (mapDelete l k) k = none :=
  mapFind_eq_none _ _ (fun v => not_mem_mapDelete_self l k v hnd)

theorem mem_getAllScan (now : Int) (l : List (String × CacheEntry))
    (k : String) (v : CacheEntry) (hv : (k, v) ∈ l)
    (hfresh : now - v.timestamp ≤ CACHE_TTL) :
    ∀ x ∈ v.data, x ∈ (getAllScan now l).1 := by
  induction l with
  | nil => simp at hv
  | cons p rest ih =>
    rcases p with ⟨k', v'⟩
    intro x hx
    rcases List.mem_cons.mp hv with h | h
    · cases h
      simp only [getAllScan, hfresh, ite_true]
      exact List.mem_append_left _ hx
    · have hrec := ih h x hx
      simp only [getAllScan]
      by_cases hf : now - v'.timestamp ≤ CACHE_TTL
      · simp only [hf, ite_true]
        exact List.mem_append_right _ hrec
      · simpa [hf] using hrec

theorem mapFind_getAllScan_none (now : Int) (l : List (String × CacheEntry))
    (k : String)
    (h : ∀ v, (k, v) ∈ l → now - v.timestamp > CACHE_TTL) :
    mapFind (getAllScan now l).2 k = none := by
  induction l with
  | nil => simp [getAllScan, mapFind]
  | cons p rest ih =>
    rcases p with ⟨k', v'⟩
    have hrest : ∀ v, (k, v) ∈ rest → now - v.timestamp > CACHE_TTL :=
      fun v hv => h v (List.mem_cons_of_mem _ hv)
    by_cases hf : now - v'.timestamp ≤ CACHE_TTL
    · have hk : ¬ k' = k := by
        intro hkk
        subst hkk
        exact absurd (h v' (by simp)) (by omega)
      simp only [getAllScan, hf, ite_true, mapFind, hk, ite_false]
      exact ih hrest
    · simp only [getAllScan, hf, ite_false]
      exact ih hrest

/- ## Derived facts about SimpleCache.get after SimpleCache.set -/

theorem get_after_set_fresh (c : SimpleCache) (t : Int) (key : String)
    (data : List NewsItem) (t' : Int) (h : t' - t ≤ CACHE_TTL) :
    ((c.set t key data).get t' key).1 = some data := by
  have h2 : ¬ (t' - t > CACHE_TTL) := by omega
  simp [SimpleCache.get, SimpleCache.set, mapFind_mapSet_self, h2]

theorem get_after_set_expired (c : SimpleCache) (t : Int) (key : String)
    (data : List NewsItem) (t' : Int) (h : t' - t > CACHE_TTL) :
    ((c.set t key data).get t' key).1 = none ∧
    ((c.set t key data).get t' key).2
      = ⟨mapDelete (mapSet c.entries key ⟨data, t⟩) key⟩ := by
  constructor <;>
    simp [SimpleCache.get, SimpleCache.set, mapFind_mapSet_self, h]

theorem applyLimit_none (l : List NewsItem) : applyLimit none l = l := rfl

theorem applyLimit_nil (limit : Option Nat) : applyLimit limit [] = [] := by
  cases limit with
  | none => rfl
  | some n => by_cases hn : n = 0 <;> simp [applyLimit, hn]

/-- The returned list of `fetchAllNewsCloudRun` is the uncapped run's list
with the limit applied at the very end; the limit influences nothing else. -/
theorem fetchAllNews_result_applyLimit (st : NewsState) (now : Int)
    (pass : SimpleCache → List (List NewsItem) × SimpleCache)
    (limit : Option Nat) :
    (fetchAllNewsCloudRun st now pass limit).result
      = applyLimit limit (fetchAllNewsCloudRun st now pass none).result := by
  unfold fetchAllNewsCloudRun
  by_cases h1 : 0 < (st.cache.getAll now).1.length
  · simp [h1, applyLimit_none]
  · by_cases h2 : st.isCurrentlyLoading
    · simp [h1, h2, applyLimit_nil]
    · simp [h1, h2, applyLimit_none]

/- ## Shared concrete sample values used by witnesses and counterexamples -/

/-- A normalized item with the given link and a parsable date stamp. -/
def sampleItem (lk : String) (n : Int) : NewsItem :=
  ⟨"title", lk, some ⟨"date", some n⟩, some ⟨"date", some n⟩, "feed", ""⟩

/-- A fetch pass over feeds that contributes nothing and leaves the cache
untouched. -/
def idPass : SimpleCache → List (List NewsItem) × SimpleCache :=
  fun c => ([], c)

/- ## C3: cache TTL -/

/-- C3 counterexample: the claim says an entry written at time `t` is absent
from `get` at every `t' ≥ t + TTL`.  At exactly `t' = t + TTL` the code's
strict comparison `now - cached.timestamp > this.CACHE_TTL` is false, so the
entry is still returned. -/
theorem C3_ttl_boundary_counterexample :
    ((SimpleCache.set ⟨[]⟩ 0 "f1" [sampleItem "L" 1]).get (0 + CACHE_TTL)
      "f1").1 ≠ none := by decide

/-- C3 amended: for every cache whose map keys are distinct (an invariant of
a real JS `Map`), an entry written by `set` at time `t` is returned by `get`
and contributes its items to `getAll` at every `t'` with `t' - t ≤ TTL`
(inclusive boundary), and for every `t'` with `t' - t > TTL` it is absent
from `get` and from `getAll`, being lazily deleted by both. -/
theorem C3_ttl (c : SimpleCache) (t : Int) (key : String)
    (data : List NewsItem) (t' : Int)
    (hnd : (c.entries.map Prod.fst).Nodup) :
    (t' - t ≤ CACHE_TTL →
      ((c.set t key data).get t' key).1 = some data ∧
      ∀ x ∈ data, x ∈ ((c.set t key data).getAll t').1) ∧
    (t' - t > CACHE_TTL →
      ((c.set t key data).get t' key).1 = none ∧
      mapFind (((c.set t key data).get t' key).2).entries key = none ∧
      mapFind (((c.set t key data).getAll t').2).entries key = none) := by
  constructor
  · intro hfresh
    refine ⟨get_after_set_fresh c t key data t' hfresh, ?_⟩
    intro x hx
    have hmem : (key, (⟨data, t⟩ : CacheEntry)) ∈ mapSet c.entries key ⟨data, t⟩ :=
      mem_mapSet_self c.entries key ⟨data, t⟩
    exact mem_getAllScan t' (mapSet c.entries key ⟨data, t⟩) key ⟨data, t⟩
      hmem (by simpa using hfresh) x hx
  · intro hexp
    rcases get_after_set_expired c t key data t' hexp with ⟨h1, h2⟩
    refine ⟨h1, ?_, ?_⟩
    · rw [h2]
      exact mapFind_mapDelete_self _ key (nodup_keys_mapSet c.entries key ⟨data, t⟩ hnd)
    · show mapFind (getAllScan t' (mapSet c.entries key ⟨data, t⟩)).2 key = none
      refine mapFind_getAllScan_none t' _ key ?_
      intro v hv
      have hveq : v = ⟨data, t⟩ :=
        mem_mapSet_eq c.entries key ⟨data, t⟩ v hnd hv
      rw [hveq]
      simpa using hexp

/-- C3 witness: the amended statement at a concrete cache, entry and times. -/
theorem C3_ttl_witness :
    ((SimpleCache.set ⟨[]⟩ 0 "f1" [sampleItem "L" 1]).get 1 "f1").1
      = some [sampleItem "L" 1] ∧
    ((SimpleCache.set ⟨[]⟩ 0 "f1" [sampleItem "L" 1]).get (CACHE_TTL + 1)
      "f1").1 = none := by
  constructor
  · exact ((C3_ttl ⟨[]⟩ 0 "f1" [sampleItem "L" 1] 1 (by decide)).1
      (by decide)).1
  · exact ((C3_ttl ⟨[]⟩ 0 "f1" [sampleItem "L" 1] (CACHE_TTL + 1)
      (by decide)).2 (by decide)).1

/- ## C10: the loading flag is cleared on every exit path -/

/-- C10: every invocation of `fetchAllNewsCloudRun` leaves
`isCurrentlyLoading = false` and `loadingStartTime = null` in its final
state — on the cache-hit path, on the already-loading path, and on the
fetch path — because the `finally` block runs on every exit. -/
theorem C10_loading_cleared (st : NewsState) (now : Int)
    (pass : SimpleCache → List (List NewsItem) × SimpleCache)
    (limit : Option Nat) :
    (fetchAllNewsCloudRun st now pass limit).state.isCurrentlyLoading = false ∧
    (fetchAllNewsCloudRun st now pass limit).state.loadingStartTime = none := by
  unfold fetchAllNewsCloudRun
  by_cases h1 : 0 < (st.cache.getAll now).1.length
  · simp [h1]
  · by_cases h2 : st.isCurrentlyLoading <;> simp [h1, h2]

/- ## C2: single-flight guard -/

/-- C2 counterexample: the claim says a call made while the loading flag is
true returns an empty result.  If the per-feed cache already holds items
(which the in-flight pass itself populates feed by feed), such a call takes
the cache-hit path and returns them instead. -/
theorem C2_loading_counterexample :
    (⟨⟨[("k", ⟨[sampleItem "L" 1], 0⟩)]⟩, true, some 0⟩ : NewsState).isCurrentlyLoading
      = true ∧
    (fetchAllNewsCloudRun ⟨⟨[("k", ⟨[sampleItem "L" 1], 0⟩)]⟩, true, some 0⟩
      0 idPass none).result ≠ [] := by decide

/-- C2 amended: a call entered while `isCurrentlyLoading` is true never
starts a fetch pass, and it returns an empty result whenever the cache
yields nothing; when the cache is non-empty it serves the cached items
instead (still without fetching). -/
theorem C2_single_flight (st : NewsState) (now : Int)
    (pass : SimpleCache → List (List NewsItem) × SimpleCache)
    (limit : Option Nat) (h : st.isCurrentlyLoading = true) :
    (fetchAllNewsCloudRun st now pass limit).startedFetch = false ∧
    ((st.cache.getAll now).1 = [] →
      (fetchAllNewsCloudRun st now pass limit).result = []) := by
  unfold fetchAllNewsCloudRun
  by_cases h1 : 0 < (st.cache.getAll now).1.length
  · constructor
    · simp [h1]
    · intro he
      rw [he] at h1
      simp at h1
  · simp [h1, h]

/-- C2 witness: the amended statement at a concrete loading state with an
empty cache. -/
theorem C2_single_flight_witness :
    (fetchAllNewsCloudRun ⟨⟨[]⟩, true, some 0⟩ 0 idPass none).startedFetch
      = false ∧
    (fetchAllNewsCloudRun ⟨⟨[]⟩, true, some 0⟩ 0 idPass none).result = [] := by
  have h := C2_single_flight ⟨⟨[]⟩, true, some 0⟩ 0 idPass none rfl
  exact ⟨h.1, h.2 (by decide)⟩

/- ## C9: the limit cap -/

/-- C9 counterexample: the claim says every provided limit caps the result
to at most that many items.  A provided `limit = 0` is falsy in
`limit ? sortedItems.slice(0, limit) : sortedItems`, so the full list is
returned instead of zero items. -/
theorem C9_zero_limit_counterexample :
    (fetchAllNewsCloudRun ⟨⟨[("k", ⟨[sampleItem "L" 1], 0⟩)]⟩, false, none⟩
      0 idPass (some 0)).result ≠ [] := by decide

/-- C9 amended: for every provided non-zero limit, `fetchAllNews(limit)`
returns the first `limit` items of the uncapped sorted sequence; a provided
limit of 0 behaves like no limit at all and yields the full sorted
sequence. -/
theorem C9_limit_cap (st : NewsState) (now : Int)
    (pass : SimpleCache → List (List NewsItem) × SimpleCache)
    (n : Nat) (hn : n ≠ 0) :
    (fetchAllNewsCloudRun st now pass (some n)).result
      = ((fetchAllNewsCloudRun st now pass none).result).take n ∧
    (fetchAllNewsCloudRun st now pass (some 0)).result
      = (fetchAllNewsCloudRun st now pass none).result := by
  constructor
  · rw [fetchAllNews_result_applyLimit st now pass (some n)]
    simp [applyLimit, hn]
  · rw [fetchAllNews_result_applyLimit st now pass (some 0)]
    simp [applyLimit]

/-- C9 witness: the amended statement at a concrete cached state. -/
theorem C9_limit_cap_witness :
    (fetchAllNewsCloudRun ⟨⟨[("k", ⟨[sampleItem "L" 1], 0⟩)]⟩, false, none⟩
        0 idPass (some 1)).result
      = ((fetchAllNewsCloudRun ⟨⟨[("k", ⟨[sampleItem "L" 1], 0⟩)]⟩, false,
        none⟩ 0 idPass none).result).take 1 ∧
    (fetchAllNewsCloudRun ⟨⟨[("k", ⟨[sampleItem "L" 1], 0⟩)]⟩, false, none⟩
        0 idPass (some 0)).result
      = (fetchAllNewsCloudRun ⟨⟨[("k", ⟨[sampleItem "L" 1], 0⟩)]⟩, false,
        none⟩ 0 idPass none).result :=
  C9_limit_cap ⟨⟨[("k", ⟨[sampleItem "L" 1], 0⟩)]⟩, false, none⟩ 0 idPass 1
    (by decide)

/- ## C1: deduplication by link -/

/-- C1 counterexample: the claim says no two items of a collection result
share a link.  The pipeline only filters undated items and sorts — there is
no deduplication step — so two fetched items with the same link both appear
in the result. -/
theorem C1_dedup_counterexample :
    ¬ (((fetchAllNewsCloudRun ⟨⟨[]⟩, false, none⟩ 0
      (fun c => ([[sampleItem "L" 1], [sampleItem "L" 2]], c)) none).result.map
      NewsItem.link).Nodup) := by decide

/-- C1 amended: no deduplication by link is performed on either path.  The
uncapped result is a permutation of the date-filtered concatenation of the
per-feed lists (multiplicities of links preserved): on the cache-hit path a
permutation of the filtered `getAll` items, on the fresh-fetch path a
permutation of the filtered flattened pass results. -/
theorem C1_no_dedup_perm (st : NewsState) (now : Int)
    (pass : SimpleCache → List (List NewsItem) × SimpleCache) :
    (0 < (st.cache.getAll now).1.length →
      List.Perm (fetchAllNewsCloudRun st now pass none).result
        ((st.cache.getAll now).1.filter hasDateField)) ∧
    ((st.cache.getAll now).1.length = 0 → st.isCurrentlyLoading = false →
      List.Perm (fetchAllNewsCloudRun st now pass none).result
        ((pass (st.cache.getAll now).2).1.flatten.filter hasDateField)) := by
  constructor
  · intro h1
    have hres : (fetchAllNewsCloudRun st now pass none).result
        = sortPipeline (st.cache.getAll now).1 := by
      unfold fetchAllNewsCloudRun
      simp [h1, applyLimit_none]
    rw [hres]
    exact sortPipeline_perm _
  · intro h1 h2
    have h1' : ¬ 0 < (st.cache.getAll now).1.length := by omega
    have hres : (fetchAllNewsCloudRun st now pass none).result
        = sortPipeline (pass (st.cache.getAll now).2).1.flatten := by
      unfold fetchAllNewsCloudRun
      simp [h1', h2, applyLimit_none]
    rw [hres]
    exact sortPipeline_perm _

/-- C1 witness: the amended statement on a concrete cache-hit run and a
concrete fresh run. -/
theorem C1_no_dedup_perm_witness :
    List.Perm (fetchAllNewsCloudRun ⟨⟨[("k", ⟨[sampleItem "L" 5], 0⟩)]⟩,
        false, none⟩ 0 idPass none).result
      ((((⟨[("k", ⟨[sampleItem "L" 5], 0⟩)]⟩ : SimpleCache)).getAll 0).1.filter
        hasDateField) ∧
    List.Perm (fetchAllNewsCloudRun ⟨⟨[]⟩, false, none⟩ 0
        (fun c => ([[sampleItem "L" 1, sampleItem "L" 2]], c)) none).result
      ((((fun (c : SimpleCache) => ([[sampleItem "L" 1, sampleItem "L" 2]], c))
        (((⟨[]⟩ : SimpleCache)).getAll 0).2).1.flatten).filter hasDateField) := by
  constructor
  · exact (C1_no_dedup_perm ⟨⟨[("k", ⟨[sampleItem "L" 5], 0⟩)]⟩, false, none⟩
      0 idPass).1 (by decide)
  · exact (C1_no_dedup_perm ⟨⟨[]⟩, false, none⟩ 0
      (fun c => ([[sampleItem "L" 1, sampleItem "L" 2]], c))).2 (by decide) rfl

/- ## C6: date filter and descending sort -/

theorem pipeline_dated (X : List NewsItem) (limit : Option Nat) :
    ∀ it ∈ applyLimit limit (sortPipeline X), hasDateField it = true :=
  fun it hit => mem_sortPipeline_hasDate X it (mem_applyLimit limit _ it hit)

theorem pipeline_sorted (X : List NewsItem) (limit : Option Nat)
    (hX : ∀ x ∈ X, (effDate x).isSome = true) :
    (applyLimit limit (sortPipeline X)).Chain'
      (fun a b => ∃ da db, effDate a = some da ∧ effDate b = some db ∧
        db ≤ da) := by
  have hpw := applyLimit_pairwise limit _ (sortPipeline_pairwise X hX)
  refine List.Pairwise.chain' (hpw.imp_of_mem ?_)
  intro a b ha hb hr
  have haX : a ∈ X := List.mem_of_mem_filter
    ((sortPipeline_perm X).mem_iff.mp (mem_applyLimit _ _ _ ha))
  have hbX : b ∈ X := List.mem_of_mem_filter
    ((sortPipeline_perm X).mem_iff.mp (mem_applyLimit _ _ _ hb))
  rcases Option.isSome_iff_exists.mp (hX a haX) with ⟨da, hda⟩
  rcases Option.isSome_iff_exists.mp (hX b hbX) with ⟨db, hdb⟩
  refine ⟨da, db, hda, hdb, ?_⟩
  have h2 : dateKey a = da := by simp [dateKey, hda]
  have h3 : dateKey b = db := by simp [dateKey, hdb]
  rw [← h2, ← h3]
  exact hr

/-- C6 counterexample: the claim says every result excludes items lacking a
parsable publish date.  The filter `item.pubDate || item.isoDate` only
checks that a date field is present and non-empty; an item whose date string
does not parse (`new Date` gives Invalid Date) is kept. -/
theorem C6_unparsable_date_counterexample :
    (⟨"t", "L", some ⟨"not a date", none⟩, none, "s", ""⟩ : NewsItem) ∈
      (fetchAllNewsCloudRun ⟨⟨[]⟩, false, none⟩ 0
        (fun c => ([[⟨"t", "L", some ⟨"not a date", none⟩, none, "s", ""⟩]], c))
        none).result ∧
    effDate (⟨"t", "L", some ⟨"not a date", none⟩, none, "s", ""⟩ : NewsItem)
      = none := by decide

/-- C6 amended: every result of `fetchAllNewsCloudRun` excludes items whose
date fields are both absent or empty (presence, not parsability, is what the
filter checks), and whenever every input item carries a parsable date,
adjacent result items are sorted descending by that date. -/
theorem C6_filter_sort (st : NewsState) (now : Int)
    (pass : SimpleCache → List (List NewsItem) × SimpleCache)
    (limit : Option Nat)
    (hc : ∀ x ∈ (st.cache.getAll now).1, (effDate x).isSome = true)
    (hp : ∀ x ∈ (pass (st.cache.getAll now).2).1.flatten,
      (effDate x).isSome = true) :
    (∀ it ∈ (fetchAllNewsCloudRun st now pass limit).result,
      hasDateField it = true) ∧
    (fetchAllNewsCloudRun st now pass limit).result.Chain'
      (fun a b => ∃ da db, effDate a = some da ∧ effDate b = some db ∧
        db ≤ da) := by
  unfold fetchAllNewsCloudRun
  by_cases h1 : 0 < (st.cache.getAll now).1.length
  · simp only [h1, ite_true]
    exact ⟨pipeline_dated _ limit, pipeline_sorted _ limit hc⟩
  · by_cases h2 : st.isCurrentlyLoading
    · simp [h1, h2]
    · simp only [h1, ite_false, h2]
      exact ⟨pipeline_dated _ limit, pipeline_sorted _ limit hp⟩

/-- C6 witness: the amended statement at a concrete cached state whose
items all carry parsable dates. -/
theorem C6_filter_sort_witness :
    (∀ it ∈ (fetchAllNewsCloudRun
        ⟨⟨[("k", ⟨[sampleItem "a" 1, sampleItem "b" 5], 0⟩)]⟩, false, none⟩
        0 idPass none).result, hasDateField it = true) ∧
    (fetchAllNewsCloudRun
        ⟨⟨[("k", ⟨[sampleItem "a" 1, sampleItem "b" 5], 0⟩)]⟩, false, none⟩
        0 idPass none).result.Chain'
      (fun a b => ∃ da db, effDate a = some da ∧ effDate b = some db ∧
        db ≤ da) :=
  C6_filter_sort ⟨⟨[("k", ⟨[sampleItem "a" 1, sampleItem "b" 5], 0⟩)]⟩,
    false, none⟩ 0 idPass none (by decide) (by decide)

/- ## C7: failures are contained; total outage yields an empty sequence -/

/-- C7: `parseRSSFeedSafe` never lets a failure escape: whenever the guarded
fresh fetch throws (modelled by `parseRSSFresh = .error`), the catch returns
`[]` (given the cache held nothing for the feed); and when every feed of a
pass contributes an empty list, `fetchAllNewsCloudRun` returns an empty
sequence instead of failing. -/
theorem C7_contained_failures (cache : SimpleCache) (now : Int)
    (env : ParseEnv) (feed : Feed) (n : Nat) (e : String)
    (st : NewsState)
    (pass : SimpleCache → List (List NewsItem) × SimpleCache)
    (limit : Option Nat)
    (h1 : (cache.get now feed.url).1 = none)
    (h2 : parseRSSFresh env feed n = .error e)
    (h3 : (st.cache.getAll now).1 = [])
    (h4 : st.isCurrentlyLoading = false)
    (h5 : ∀ l ∈ (pass (st.cache.getAll now).2).1, l = []) :
    (parseRSSFeedSafe cache now env feed n).1 = [] ∧
    (fetchAllNewsCloudRun st now pass limit).result = [] := by
  constructor
  · unfold parseRSSFeedSafe
    simp [h1, h2]
  · have hflat : (pass (st.cache.getAll now).2).1.flatten = [] :=
      List.flatten_eq_nil_iff.mpr h5
    have h3' : ¬ 0 < (st.cache.getAll now).1.length := by
      rw [h3]; simp
    unfold fetchAllNewsCloudRun
    simp [h3', h4, hflat, sortPipeline, jsSortByDate, applyLimit_nil]

/-- C7 witness: a feed whose download always fails and a pass in which every
feed contributes nothing. -/
theorem C7_contained_failures_witness :
    (parseRSSFeedSafe ⟨[]⟩ 0 ⟨fun _ => .err "socket hang up",
        fun _ => .ok none⟩ ⟨"F", "u"⟩ 20).1 = [] ∧
    (fetchAllNewsCloudRun ⟨⟨[]⟩, false, none⟩ 0
      (fun c => ([[], [], [], [], []], c)) none).result = [] := by
  refine C7_contained_failures ⟨[]⟩ 0 ⟨fun _ => .err "socket hang up",
    fun _ => .ok none⟩ ⟨"F", "u"⟩ 20 "Failed to fetch XML data"
    ⟨⟨[]⟩, false, none⟩ (fun c => ([[], [], [], [], []], c)) none
    rfl rfl rfl rfl ?_
  intro l hl
  simpa using hl

/- ## Step lemmas for the two retry loops -/

theorem axiosRetryLoop_fail_step (attempts : Nat → AttemptOutcome)
    (attempt fuel : Nat) (h : attemptFails (attempts attempt) = true) :
    axiosRetryLoop attempts attempt (fuel + 1) =
      if fuel = 0 then (none, [], 1)
      else
        let r := axiosRetryLoop attempts (attempt + 1) fuel
        (r.1, attempt * 1000 :: r.2.1, r.2.2 + 1) := by
  rcases ho : attempts attempt with m | d
  case err =>
    simp [axiosRetryLoop, ho]
  case body =>
    have hd : emptyBody d = true := by
      rw [ho] at h
      simpa [attemptFails] using h
    simp [axiosRetryLoop, ho, hd]

theorem axiosRetryLoop_success_step (attempts : Nat → AttemptOutcome)
    (attempt fuel : Nat) (d : String) (ho : attempts attempt = .body d)
    (hd : emptyBody d = false) :
    axiosRetryLoop attempts attempt (fuel + 1) = (some d, [], 1) := by
  simp [axiosRetryLoop, ho, hd]

theorem retryLoopWR_retry_step (outcomes : Nat → ParseURLOutcome)
    (maxRetries : Nat) (nm : String) (attempt fuel : Nat) (m : String)
    (ho : outcomes attempt = .err m) (hr : shouldRetryMsg m = true)
    (hlast : ¬ attempt = maxRetries) :
    retryLoopWR outcomes maxRetries nm attempt (fuel + 1) =
      (let r := retryLoopWR outcomes maxRetries nm (attempt + 1) fuel
       (r.1, min (1000 * 2 ^ (attempt - 1)) 10000 :: r.2.1, r.2.2 + 1)) := by
  simp [retryLoopWR, ho, hr, hlast]

theorem retryLoopWR_stop_step (outcomes : Nat → ParseURLOutcome)
    (maxRetries : Nat) (nm : String) (attempt fuel : Nat) (m : String)
    (ho : outcomes attempt = .err m)
    (hstop : shouldRetryMsg m = false ∨ attempt = maxRetries) :
    retryLoopWR outcomes maxRetries nm attempt (fuel + 1)
      = (some [], [], 1) := by
  rcases hstop with h | h
  · simp [retryLoopWR, ho, h]
  · subst h
    simp [retryLoopWR, ho]

/- ## C4: the retry bound and backoff schedule -/

/-- C4: a feed fetch whose every attempt fails with a retryable error is
attempted exactly 3 times, waiting 1000 ms after attempt 1 and 2000 ms
after attempt 2, then yields an empty result.  This holds in both
implementations: `parseRSSWithRetry` (schedule `min(1000·2^(i−1), 10000)`)
and the download loop of `parseRSSFeedSafe` (schedule `attempt * 1000`),
whose realized schedules coincide at `[1000, 2000]`; in the latter the
failed download makes the catch return `[]`. -/
theorem C4_retry_bound (outcomes : Nat → ParseURLOutcome)
    (attempts : Nat → AttemptOutcome) (feed : Feed) (now : Int)
    (parse : String → Except String (Option (List RawItem))) (n : Nat)
    (hret : ∀ i, 1 ≤ i → i ≤ 3 →
      ∃ m, outcomes i = .err m ∧ shouldRetryMsg m = true)
    (hfail : ∀ i, 1 ≤ i → i ≤ 3 → attemptFails (attempts i) = true) :
    parseRSSWithRetry outcomes feed 3 = (some [], [1000, 2000], 3) ∧
    axiosDownload attempts = (none, [1000, 2000], 3) ∧
    (parseRSSFeedSafe ⟨[]⟩ now ⟨attempts, parse⟩ feed n).1 = [] := by
  obtain ⟨m1, ho1, hr1⟩ := hret 1 (by norm_num) (by norm_num)
  obtain ⟨m2, ho2, hr2⟩ := hret 2 (by norm_num) (by norm_num)
  obtain ⟨m3, ho3, hr3⟩ := hret 3 (by norm_num) (by norm_num)
  have e3 : retryLoopWR outcomes 3 feed.name 3 1 = (some [], [], 1) := by
    have h := retryLoopWR_stop_step outcomes 3 feed.name 3 0 m3 ho3 (Or.inr rfl)
    simpa using h
  have e2 : retryLoopWR outcomes 3 feed.name 2 2 = (some [], [2000], 2) := by
    have h := retryLoopWR_retry_step outcomes 3 feed.name 2 1 m2 ho2 hr2
      (by norm_num)
    rw [show (2 + 1 : Nat) = 3 from rfl] at h
    rw [h, e3]
    norm_num
  have e1 : retryLoopWR outcomes 3 feed.name 1 3 = (some [], [1000, 2000], 3) := by
    have h := retryLoopWR_retry_step outcomes 3 feed.name 1 2 m1 ho1 hr1
      (by norm_num)
    rw [show (1 + 1 : Nat) = 2 from rfl] at h
    rw [h, e2]
    norm_num
  have a3 : axiosRetryLoop attempts 3 1 = (none, [], 1) := by
    have h := axiosRetryLoop_fail_step attempts 3 0
      (hfail 3 (by norm_num) (by norm_num))
    simpa using h
  have a2 : axiosRetryLoop attempts 2 2 = (none, [2000], 2) := by
    have h := axiosRetryLoop_fail_step attempts 2 1
      (hfail 2 (by norm_num) (by norm_num))
    rw [show (2 + 1 : Nat) = 3 from rfl] at h
    rw [h, a3]
    norm_num
  have a1 : axiosDownload attempts = (none, [1000, 2000], 3) := by
    have h := axiosRetryLoop_fail_step attempts 1 2
      (hfail 1 (by norm_num) (by norm_num))
    rw [show (1 + 1 : Nat) = 2 from rfl] at h
    unfold axiosDownload
    rw [h, a2]
    norm_num
  refine ⟨e1, a1, ?_⟩
  unfold parseRSSFeedSafe
  simp [SimpleCache.get, mapFind, parseRSSFresh, a1]

/-- C4 witness: the statement at concrete always-failing retryable
outcomes. -/
theorem C4_retry_bound_witness :
    parseRSSWithRetry (fun _ => .err "timeout") ⟨"F", "u"⟩ 3
      = (some [], [1000, 2000], 3) ∧
    axiosDownload (fun _ => .err "read ECONNRESET")
      = (none, [1000, 2000], 3) ∧
    (parseRSSFeedSafe ⟨[]⟩ 0 ⟨fun _ => .err "read ECONNRESET",
      fun _ => .ok none⟩ ⟨"F", "u"⟩ 20).1 = [] :=
  C4_retry_bound (fun _ => .err "timeout") (fun _ => .err "read ECONNRESET")
    ⟨"F", "u"⟩ 0 (fun _ => .ok none) 20
    (fun _ _ _ => ⟨"timeout", rfl, by decide⟩)
    (fun _ _ _ => rfl)

/- ## C5: non-retryable errors -/

/-- C5 counterexample: the claim says an attempt failing with an empty body
terminates the fetch at once with no further attempt.  In the download loop
of `parseRSSFeedSafe` an empty body throws `Empty response data`, which the
loop retries like any other failure: with an empty body at every attempt,
3 attempts are made, not 1. -/
theorem C5_empty_body_retried_counterexample :
    (axiosDownload (fun _ => AttemptOutcome.body "")).2.2 = 3 ∧
    ¬ (axiosDownload (fun _ => AttemptOutcome.body "")).2.2 = 1 := by decide

/-- C5 amended: in `parseRSSWithRetry` a first attempt failing with a
non-retryable error message ends the fetch immediately — one attempt, no
backoff, empty result.  In `parseRSSFeedSafe` only parse-stage failures
(malformed document) are beyond the retry loop: a first-attempt download
followed by a parse error yields `[]` with exactly one attempt and no
backoff; download-stage errors (HTTP status, empty body) are retried
instead. -/
theorem C5_nonretryable (outcomes : Nat → ParseURLOutcome) (feed : Feed)
    (msg : String) (attempts : Nat → AttemptOutcome) (xml e : String)
    (parse : String → Except String (Option (List RawItem))) (now : Int)
    (n : Nat)
    (h1 : outcomes 1 = .err msg) (h2 : shouldRetryMsg msg = false)
    (h3 : attempts 1 = .body xml) (h4 : emptyBody xml = false)
    (h5 : parse xml = .error e) :
    parseRSSWithRetry outcomes feed 3 = (some [], [], 1) ∧
    axiosDownload attempts = (some xml, [], 1) ∧
    (parseRSSFeedSafe ⟨[]⟩ now ⟨attempts, parse⟩ feed n).1 = [] := by
  have hwr : parseRSSWithRetry outcomes feed 3 = (some [], [], 1) := by
    have h := retryLoopWR_stop_step outcomes 3 feed.name 1 2 msg h1 (Or.inl h2)
    unfold parseRSSWithRetry
    simpa using h
  have hax : axiosDownload attempts = (some xml, [], 1) := by
    have h := axiosRetryLoop_success_step attempts 1 2 xml h3 h4
    unfold axiosDownload
    simpa using h
  refine ⟨hwr, hax, ?_⟩
  unfold parseRSSFeedSafe
  simp [SimpleCache.get, mapFind, parseRSSFresh, hax, h5]

/-- C5 witness: a non-retryable message and a malformed document at concrete
inputs. -/
theorem C5_nonretryable_witness :
    parseRSSWithRetry (fun _ => .err "Unable to parse XML") ⟨"F", "u"⟩ 3
      = (some [], [], 1) ∧
    axiosDownload (fun _ => .body "<html>") = (some "<html>", [], 1) ∧
    (parseRSSFeedSafe ⟨[]⟩ 0 ⟨fun _ => .body "<html>",
      fun _ => .error "Non-whitespace before first tag"⟩ ⟨"F", "u"⟩ 20).1
      = [] :=
  C5_nonretryable (fun _ => .err "Unable to parse XML") ⟨"F", "u"⟩
    "Unable to parse XML" (fun _ => .body "<html>") "<html>"
    "Non-whitespace before first tag"
    (fun _ => .error "Non-whitespace before first tag") 0 20
    rfl (by decide) rfl (by decide) rfl

/- ## C8: the first desiredCount entries with a usable link -/

/-- The feed document of the C8 counterexample: the first entry has no
usable link, the next two do. -/
def C8doc : List RawItem :=
  [⟨none, none, none, none, none, none⟩,
   ⟨none, some "L1", none, some ⟨"d", some 1⟩, none, none⟩,
   ⟨none, some "L2", none, some ⟨"d", some 2⟩, none, none⟩]

/-- C8 counterexample: the claim says that a document with at least
`desiredCount` entries having a usable link yields exactly `desiredCount`
items.  The code slices the first `desiredCount` entries BEFORE filtering
out linkless ones, so a linkless entry inside the slice shrinks the
result. -/
theorem C8_slice_filter_counterexample :
    2 ≤ (C8doc.filter usableLink).length ∧
    ¬ (processFeedItems "F" 2 C8doc).length = 2 := by decide

/-- C8 amended: the fetcher returns, of the first `desiredCount` entries of
the document, those that have a usable link; in particular, whenever the
first `desiredCount` entries all have usable links (and the document holds
at least that many), it returns exactly `desiredCount` items. -/
theorem C8_first_entries (feedName : String) (n : Nat)
    (rawItems : List RawItem)
    (h : ∀ it ∈ rawItems.take n, usableLink it = true)
    (hn : n ≤ rawItems.length) :
    (processFeedItems feedName n rawItems).length = n := by
  unfold processFeedItems
  rw [List.filter_eq_self.mpr]
  · rw [List.length_map, List.length_take]
    omega
  · intro it hit
    rcases List.mem_map.mp hit with ⟨r, hr, rfl⟩
    have hu := h r hr
    simpa [normalizeItem, usableLink] using hu

/-- C8 witness: a document whose first two entries both carry links. -/
theorem C8_first_entries_witness :
    (processFeedItems "F" 2
      [⟨none, some "L1", none, some ⟨"d", some 1⟩, none, none⟩,
       ⟨none, some "L2", none, some ⟨"d", some 2⟩, none, none⟩,
       ⟨none, none, none, none, none, none⟩]).length = 2 :=
  C8_first_entries "F" 2
    [⟨none, some "L1", none, some ⟨"d", some 1⟩, none, none⟩,
     ⟨none, some "L2", none, some ⟨"d", some 2⟩, none, none⟩,
     ⟨none, none, none, none, none, none⟩]
    (by decide) (by decide)

end DGNB
